import Mathlib

/-!
Verification of the fex image viewer (src/main.rs): the decode / reduce /
normalize pipeline of `get_image_tiff`, `get_image_fits` and the `get_image`
dispatcher.

Modelling conventions.
Pixel samples are 32-bit floats in the source.  All finite arithmetic is
modelled exactly over `ℚ` (an idealisation: f32 rounding is not modelled),
but the special values that the pipeline can actually produce — division by
zero when a single-page TIFF makes `levels = 0`, and division by a zero
maximum during normalisation — are modelled faithfully with an extended
value type `F` carrying NaN and the two infinities, with IEEE-754
comparison semantics (every comparison involving NaN is false) and with
Rust's saturating float-to-integer `as u8` cast (NaN ↦ 0, -inf ↦ 0,
+inf ↦ 255, finite values truncated toward zero and clamped to 0..255).
Rust `Vec` indexing panics out of bounds; the Lean embedding uses
`List.getD` / `List.set` (default / no-op out of bounds), and the theorems
about buffer contents carry the in-bounds hypotheses established by the
bounds analysis of the index formula `row * height + col`.
-/

namespace Fex

/-- Extended 32-bit-float value: NaN, the infinities, or a finite value
(finite arithmetic idealised as exact rational arithmetic). -/
inductive F where
  | nan : F
  | pinf : F
  | ninf : F
  | fin : ℚ → F
deriving DecidableEq

/-- IEEE multiplication on `F` (finite products idealised as exact). -/
def F.mul : F → F → F
  | .nan, _ => .nan
  | _, .nan => .nan
  | .pinf, .pinf => .pinf
  | .pinf, .ninf => .ninf
  | .ninf, .pinf => .ninf
  | .ninf, .ninf => .pinf
  | .pinf, .fin b => if 0 < b then .pinf else if b < 0 then .ninf else .nan
  | .fin a, .pinf => if 0 < a then .pinf else if a < 0 then .ninf else .nan
  | .ninf, .fin b => if 0 < b then .ninf else if b < 0 then .pinf else .nan
  | .fin a, .ninf => if 0 < a then .ninf else if a < 0 then .pinf else .nan
  | .fin a, .fin b => .fin (a * b)

/-- IEEE division on `F`; dividing a finite value by (positive) zero gives
+inf, -inf or NaN according to the sign of the numerator, exactly what the
source's `x / (levels as f32)` and `x / maxp` produce when the divisor
is `0.0`. -/
def F.div : F → F → F
  | .nan, _ => .nan
  | _, .nan => .nan
  | .pinf, .pinf => .nan
  | .pinf, .ninf => .nan
  | .ninf, .pinf => .nan
  | .ninf, .ninf => .nan
  | .pinf, .fin b => if b < 0 then .ninf else .pinf
  | .ninf, .fin b => if b < 0 then .pinf else .ninf
  | .fin _, .pinf => .fin 0
  | .fin _, .ninf => .fin 0
  | .fin a, .fin b =>
      if b = 0 then (if 0 < a then .pinf else if a < 0 then .ninf else .nan)
      else .fin (a / b)

/-- IEEE strict less-than on `F`: any comparison involving NaN is false. -/
def F.blt : F → F → Bool
  | .nan, _ => false
  | _, .nan => false
  | .pinf, _ => false
  | _, .pinf => true
  | .ninf, .ninf => false
  | .ninf, _ => true
  | _, .ninf => false
  | .fin a, .fin b => decide (a < b)

/-- IEEE less-or-equal on `F`: any comparison involving NaN is false. -/
def F.ble : F → F → Bool
  | .nan, _ => false
  | _, .nan => false
  | .ninf, _ => true
  | _, .ninf => false
  | _, .pinf => true
  | .pinf, _ => false
  | .fin a, .fin b => decide (a ≤ b)

/-- Rust saturating `as u8` cast from f32 (the cast on source lines 115/217):
NaN and -inf give 0, +inf gives 255, finite values are truncated toward
zero and clamped into 0..255 (for values clamped to a nonnegative range,
truncation toward zero agrees with the floor used here). -/
def F.toU8 : F → ℕ
  | .nan => 0
  | .pinf => 255
  | .ninf => 0
  | .fin q => (min 255 ⌊q⌋).toNat

/-- Sum, at one linear frame offset, of the first frame and all additional
U16-decoded pages: `img_buffer[y][x] = img_res[...]` (line 177) followed by
`img_buffer[y][x] += img_next[...]` for each page of the while-loop
(lines 181-197).  `frame0` is the first decoded page, `rest` the additional
pages that decoded as `DecodingResult::U16`. -/
def stackSum (frame0 : List ℕ) (rest : List (List ℕ)) (idx : ℕ) : ℚ :=
  (frame0 :: rest).foldl (fun acc fr => acc + ((fr.getD idx 0 : ℕ) : ℚ)) 0

/-- Reduced TIFF sample at (y, x), lines 173-203 of the source: the
accumulated sum at linear offset `y * height + x` divided by
`levels` = number of additional pages (`rest.length`) — a division by zero
when the stack has a single page. -/
def tiffReduced (frame0 : List ℕ) (rest : List (List ℕ)) (h : ℕ) (y x : ℕ) : F :=
  F.div (F.fin (stackSum frame0 rest (y * h + x))) (F.fin ((rest.length : ℕ) : ℚ))

/-- Reduced FITS sample at (y, x), lines 82-86 of the source:
`img_buffer[y][x] = data[y * height + x]` — no averaging, a FITS decode
always yields a single frame. -/
def fitsReduced (data : List ℚ) (h : ℕ) (y x : ℕ) : ℚ :=
  data.getD (y * h + x) 0

/-- Pixel coordinates in the order the nested `for y ... for x ...` loops
visit them. -/
def pixelIndices (w h : ℕ) : List (ℕ × ℕ) :=
  (List.range h).flatMap (fun y => (List.range w).map (fun x => (y, x)))

/-- One step of the min/max scan (lines 206-213 / 104-111):
`if v > maxp { maxp = v }; if v < minp { minp = v }`. -/
def scanStep (mm : F × F) (v : F) : F × F :=
  (if F.blt v mm.1 then v else mm.1, if F.blt mm.2 v then v else mm.2)

/-- The min/max scan over the reduced samples: a single linear pass with the
running minimum initialised to the sentinel `1e12` and the running maximum
to `0.0` (lines 104-105 / 206-207).  Result is (minp, maxp). -/
def scanMinMax (samples : ℕ → ℕ → F) (w h : ℕ) : F × F :=
  (pixelIndices w h).foldl (fun mm yx => scanStep mm (samples yx.1 yx.2))
    (F.fin (10 ^ 12), F.fin 0)

/-- The displayed byte of one pixel (lines 115/217):
`(sample / maxp * 255.0) as u8`.  Only `maxp` enters the formula. -/
def normByte (v maxp : F) : ℕ :=
  F.toU8 (F.mul (F.div v maxp) (F.fin 255))

/-- The three channel writes of one pixel (lines 117-119 / 219-221):
`final_buffer[idx] = colour; final_buffer[idx+1] = colour;
final_buffer[idx+2] = colour`. -/
def writePixel (buf : List ℕ) (idx colour : ℕ) : List ℕ :=
  ((buf.set idx colour).set (idx + 1) colour).set (idx + 2) colour

/-- The normalisation loop (lines 113-121 / 215-223): starting from the
all-zero RGB buffer of `width * height * 3` bytes (allocation loop,
lines 93-101 / 162-170), write each pixel's byte to the three channels at
`idx = (y * height + x) * 3`. -/
def finalBuffer (samples : ℕ → ℕ → F) (w h : ℕ) (maxp : F) : List ℕ :=
  (pixelIndices w h).foldl
    (fun buf yx => writePixel buf ((yx.1 * h + yx.2) * 3) (normByte (samples yx.1 yx.2) maxp))
    (List.replicate (w * h * 3) 0)

/-- Intra-frame linear read offset used by the source at lines 84, 177, 190:
`row * height + col`. -/
def readOffset (h y x : ℕ) : ℕ := y * h + x

/-- Output-buffer write offset used at lines 116, 218:
`(row * height + col) * 3`. -/
def writeOffset (h y x : ℕ) : ℕ := (y * h + x) * 3

/-- Number of samples of one decoded frame: `width * height`. -/
def frameLen (w h : ℕ) : ℕ := w * h

/-- Length of the RGB display buffer (allocation loops, lines 93-101 and
162-170): `width * height * 3`. -/
def bufLen (w h : ℕ) : ℕ := w * h * 3

/-- Sample access with the row-major indexing `row * width + col` stated by
the spec, to be compared with the source's `row * height + col`
(refinement claim C7). -/
def rowMajorSample (data : List ℚ) (w : ℕ) (y x : ℕ) : ℚ :=
  data.getD (y * w + x) 0

/-- Reduced TIFF sample with row-major `row * width + col` indexing as the
spec states it (refinement claim C7). -/
def tiffReducedRowMajor (frame0 : List ℕ) (rest : List (List ℕ)) (w : ℕ) (y x : ℕ) : F :=
  F.div (F.fin (stackSum frame0 rest (y * w + x))) (F.fin ((rest.length : ℕ) : ℚ))

/-- Normalisation loop with the row-major write offset `(y * width + x) * 3`
as the spec states it (refinement claim C7). -/
def finalBufferRowMajor (samples : ℕ → ℕ → F) (w h : ℕ) (maxp : F) : List ℕ :=
  (pixelIndices w h).foldl
    (fun buf yx => writePixel buf ((yx.1 * w + yx.2) * 3) (normByte (samples yx.1 yx.2) maxp))
    (List.replicate (w * h * 3) 0)

/-- Colour types as reported by the tiff crate (the source asserts
`ColorType::Gray(16)` on line 147; the other shapes are representative of
the crate's remaining variants). -/
inductive ColorType where
  | Gray (bits : ℕ)
  | GrayA (bits : ℕ)
  | RGB (bits : ℕ)
  | RGBA (bits : ℕ)
  | Palette (bits : ℕ)
  | CMYK (bits : ℕ)
deriving DecidableEq

/-- Decoded TIFF sample buffers as in the tiff crate's `DecodingResult`:
the source only ever accepts the U16 variant; U8 stands for every other
sample encoding the crate can deliver. -/
inductive DecodingResult where
  | U8 (data : List ℕ)
  | U16 (data : List ℕ)
deriving DecidableEq

/-- FITS data arrays as in fitrs's `FitsData` (shape, then flat data):
the source only ever accepts FloatingPoint32; IntegersI32 stands for every
other variant, all of which hit the silent catch-all arm of line 88. -/
inductive FitsData where
  | FloatingPoint32 (shape : List ℕ) (data : List ℚ)
  | IntegersI32 (shape : List ℕ) (data : List ℤ)
deriving DecidableEq

/-- Outcome kind of the image-loading functions: a normal return carrying
the reported width and height, the dummy fallback return of `get_image`
(line 272, a plain `(gtk::Image::new(), 0, 0, 0.0, 0.0)` tuple), or a
process panic with its message. -/
inductive RenderResult where
  | ok (width height : ℕ) : RenderResult
  | dummy : RenderResult
  | fatal (msg : String) : RenderResult
deriving DecidableEq

/-- Outcome kind of `get_image_tiff` (lines 140-248): the assertion of
line 147 panics unless the colour type is Gray(16); a first page that is
not `DecodingResult::U16` panics "Wrong data type" (line 243); otherwise
the function returns normally with the decoder's dimensions. -/
def getImageTiffKind (w h : ℕ) (ct : ColorType) (res : DecodingResult) : RenderResult :=
  if ct = ColorType.Gray 16 then
    match res with
    | DecodingResult.U16 _ => RenderResult.ok w h
    | _ => RenderResult.fatal "Wrong data type"
  else RenderResult.fatal "assertion failed"

/-- Outcome kind of `get_image_fits` (lines 53-136): FloatingPoint32 data
returns normally with width = shape[1] and height = shape[0] (lines 71-72);
any other data kind falls into the silent `_ => {}` arm of line 88 and the
function still returns normally, with the 0×0 empty image. -/
def getImageFitsKind : FitsData → RenderResult
  | FitsData.FloatingPoint32 shape _ => RenderResult.ok (shape.getD 1 0) (shape.getD 0 0)
  | _ => RenderResult.ok 0 0

/-- Outcome kind of the `get_image` dispatcher (lines 262-273): a missing
extension panics inside `unwrap`, extension "fits" dispatches to the FITS
path, "tif"/"tiff" to the TIFF path, and any other extension returns the
dummy tuple — a normal return, not an error. -/
def getImage (ext : Option String) (w h : ℕ) (fits : FitsData)
    (ct : ColorType) (res : DecodingResult) : RenderResult :=
  match ext with
  | none => RenderResult.fatal "called Option unwrap on a None value"
  | some e =>
      if e = "fits" then getImageFitsKind fits
      else if e = "tif" ∨ e = "tiff" then getImageTiffKind w h ct res
      else RenderResult.dummy

end Fex

namespace Fex

/- ------------------------------------------------------------------ -/
/- Helper lemmas                                                       -/
/- ------------------------------------------------------------------ -/

/-- Folding addition of a mapped value over a list, with any start value,
is the start value plus the sum of the images. -/
theorem foldl_add_eq_sum {α : Type} (f : α → ℚ) :
    ∀ (l : List α) (a : ℚ), l.foldl (fun acc fr => acc + f fr) a = a + (l.map f).sum := by
  intro l
  induction l with
  | nil => intro a; simp
  | cons fr l ih =>
      intro a
      simp only [List.foldl_cons, List.map_cons, List.sum_cons]
      rw [ih]
      ring

/-- The sum of a map whose every value is `v` is `length * v`. -/
theorem sum_map_const {α : Type} (f : α → ℚ) (v : ℚ) :
    ∀ (l : List α), (∀ fr ∈ l, f fr = v) → (l.map f).sum = l.length * v := by
  intro l
  induction l with
  | nil => intro _; simp
  | cons fr l ih =>
      intro hall
      simp only [List.map_cons, List.sum_cons, List.length_cons]
      rw [hall fr (List.mem_cons_self fr l), ih (fun q hq => hall q (List.mem_cons_of_mem fr hq))]
      push_cast
      ring

/-- Membership in the pixel coordinate enumeration. -/
theorem mem_pixelIndices {w h : ℕ} {p : ℕ × ℕ} :
    p ∈ pixelIndices w h ↔ p.1 < h ∧ p.2 < w := by
  cases p with
  | mk y x =>
      simp only [pixelIndices, List.mem_flatMap, List.mem_map, List.mem_range, Prod.mk.injEq]
      constructor
      · rintro ⟨a, ha, b, hb, hba⟩
        exact ⟨hba.1 ▸ ha, hba.2 ▸ hb⟩
      · rintro ⟨hy, hx⟩
        exact ⟨y, hy, x, hx, rfl, rfl⟩

/-- With at least one additional page the reduced TIFF sample is the finite
value `sum / levels`. -/
theorem tiffReduced_of_rest_ne_nil (frame0 : List ℕ) (rest : List (List ℕ))
    (h y x : ℕ) (hrest : rest ≠ []) :
    tiffReduced frame0 rest h y x =
      F.fin (stackSum frame0 rest (y * h + x) / ((rest.length : ℕ) : ℚ)) := by
  have hlen : (rest.length : ℚ) ≠ 0 :=
    Nat.cast_ne_zero.mpr (List.length_pos.mpr hrest).ne'
  simp [tiffReduced, F.div, hlen]

/- IEEE comparison facts about F -/

/-- NaN is never strictly below anything. -/
theorem F.blt_nan_left (b : F) : F.blt F.nan b = false := by cases b <;> rfl

/-- Nothing is strictly below NaN. -/
theorem F.blt_nan_right (a : F) : F.blt a F.nan = false := by cases a <;> rfl

/-- Nothing is below-or-equal NaN. -/
theorem F.ble_nan_right (a : F) : F.ble a F.nan = false := by cases a <;> rfl

/-- NaN is below-or-equal nothing. -/
theorem F.ble_nan_left (b : F) : F.ble F.nan b = false := by cases b <;> rfl

/-- Strict comparison is irreflexive, also on NaN. -/
theorem F.blt_self (a : F) : F.blt a a = false := by
  cases a <;> simp [F.blt]

/-- Strict comparison is transitive. -/
theorem F.blt_trans {a b c : F} (h1 : F.blt a b = true) (h2 : F.blt b c = true) :
    F.blt a c = true := by
  cases a <;> cases b <;> cases c <;> simp_all [F.blt] <;> linarith

/-- Below-or-equal is reflexive away from NaN. -/
theorem F.ble_refl {a : F} (ha : a ≠ F.nan) : F.ble a a = true := by
  cases a <;> simp_all [F.ble]

/-- Totality away from NaN: a value not strictly below another is
at-or-above it. -/
theorem F.ble_of_not_blt {a b : F} (ha : a ≠ F.nan) (hb : b ≠ F.nan)
    (h : F.blt a b = false) : F.ble b a = true := by
  cases a <;> cases b <;> simp_all [F.blt, F.ble]

/-- Chaining below-or-equal with a strict step. -/
theorem F.ble_blt_trans {a b c : F} (h1 : F.ble a b = true) (h2 : F.blt b c = true) :
    F.ble a c = true := by
  cases a <;> cases b <;> cases c <;> simp_all [F.blt, F.ble] <;> linarith

/-- Chaining a strict step with below-or-equal. -/
theorem F.blt_ble_trans {a b c : F} (h1 : F.blt a b = true) (h2 : F.ble b c = true) :
    F.ble a c = true := by
  cases a <;> cases b <;> cases c <;> simp_all [F.blt, F.ble] <;> linarith

/- Scan-step facts -/

/-- The running minimum never becomes NaN. -/
theorem scanStep_fst_ne_nan {mm : F × F} {v : F} (h1 : mm.1 ≠ F.nan) :
    (scanStep mm v).1 ≠ F.nan := by
  unfold scanStep
  dsimp only
  split
  · next hb =>
      intro hv
      rw [hv, F.blt_nan_left] at hb
      exact Bool.false_ne_true hb
  · exact h1

/-- The running maximum never becomes NaN. -/
theorem scanStep_snd_ne_nan {mm : F × F} {v : F} (h2 : mm.2 ≠ F.nan) :
    (scanStep mm v).2 ≠ F.nan := by
  unfold scanStep
  dsimp only
  split
  · next hb =>
      intro hv
      rw [hv, F.blt_nan_right] at hb
      exact Bool.false_ne_true hb
  · exact h2

/-- After one step the scanned value bounds the running minimum from above. -/
theorem scanStep_min_le {mm : F × F} {v : F} (h1 : mm.1 ≠ F.nan) (hv : v ≠ F.nan) :
    F.ble (scanStep mm v).1 v = true := by
  unfold scanStep
  dsimp only
  split
  · exact F.ble_refl hv
  · next hb => exact F.ble_of_not_blt hv h1 (Bool.not_eq_true _ ▸ hb)

/-- After one step the scanned value bounds the running maximum from below. -/
theorem scanStep_le_max {mm : F × F} {v : F} (h2 : mm.2 ≠ F.nan) (hv : v ≠ F.nan) :
    F.ble v (scanStep mm v).2 = true := by
  unfold scanStep
  dsimp only
  split
  · exact F.ble_refl hv
  · next hb => exact F.ble_of_not_blt h2 hv (Bool.not_eq_true _ ▸ hb)

/- Fold invariants of the min/max scan -/

/-- Neither running extreme ever becomes NaN along the scan. -/
theorem scan_fold_ne_nan (samples : ℕ → ℕ → F) :
    ∀ (l : List (ℕ × ℕ)) (mm : F × F), mm.1 ≠ F.nan → mm.2 ≠ F.nan →
      (l.foldl (fun mm yx => scanStep mm (samples yx.1 yx.2)) mm).1 ≠ F.nan ∧
      (l.foldl (fun mm yx => scanStep mm (samples yx.1 yx.2)) mm).2 ≠ F.nan := by
  intro l
  induction l with
  | nil => intro mm h1 h2; exact ⟨h1, h2⟩
  | cons q l ih =>
      intro mm h1 h2
      simp only [List.foldl_cons]
      exact ih _ (scanStep_fst_ne_nan h1) (scanStep_snd_ne_nan h2)

/-- A lower bound on the running maximum persists along the scan. -/
theorem scan_fold_persist_max (samples : ℕ → ℕ → F) :
    ∀ (l : List (ℕ × ℕ)) (mm : F × F) (v : F), F.ble v mm.2 = true →
      F.ble v (l.foldl (fun mm yx => scanStep mm (samples yx.1 yx.2)) mm).2 = true := by
  intro l
  induction l with
  | nil => intro mm v hv; exact hv
  | cons q l ih =>
      intro mm v hv
      simp only [List.foldl_cons]
      apply ih
      unfold scanStep
      dsimp only
      split
      · next hb => exact F.ble_blt_trans hv hb
      · exact hv

/-- An upper bound on the running minimum persists along the scan. -/
theorem scan_fold_persist_min (samples : ℕ → ℕ → F) :
    ∀ (l : List (ℕ × ℕ)) (mm : F × F) (v : F), F.ble mm.1 v = true →
      F.ble (l.foldl (fun mm yx => scanStep mm (samples yx.1 yx.2)) mm).1 v = true := by
  intro l
  induction l with
  | nil => intro mm v hv; exact hv
  | cons q l ih =>
      intro mm v hv
      simp only [List.foldl_cons]
      apply ih
      unfold scanStep
      dsimp only
      split
      · next hb => exact F.blt_ble_trans hb hv
      · exact hv

/-- Every non-NaN scanned value ends up between the final running minimum
and the final running maximum. -/
theorem scan_fold_bounds (samples : ℕ → ℕ → F) :
    ∀ (l : List (ℕ × ℕ)) (mm : F × F), mm.1 ≠ F.nan → mm.2 ≠ F.nan →
      ∀ p ∈ l, samples p.1 p.2 ≠ F.nan →
        F.ble (l.foldl (fun mm yx => scanStep mm (samples yx.1 yx.2)) mm).1
          (samples p.1 p.2) = true ∧
        F.ble (samples p.1 p.2)
          (l.foldl (fun mm yx => scanStep mm (samples yx.1 yx.2)) mm).2 = true := by
  intro l
  induction l with
  | nil => intro mm _ _ p hp; cases hp
  | cons q l ih =>
      intro mm h1 h2 p hp hpnan
      simp only [List.foldl_cons]
      rcases List.mem_cons.mp hp with hpq | hpl
      · subst hpq
        constructor
        · exact scan_fold_persist_min samples l _ _ (scanStep_min_le h1 hpnan)
        · exact scan_fold_persist_max samples l _ _ (scanStep_le_max h2 hpnan)
      · exact ih _ (scanStep_fst_ne_nan h1) (scanStep_snd_ne_nan h2) p hpl hpnan

/-- No scanned value is ever strictly above the final running maximum. -/
theorem scan_fold_max_not_lt_persist (samples : ℕ → ℕ → F) :
    ∀ (l : List (ℕ × ℕ)) (mm : F × F) (v : F), F.blt mm.2 v = false →
      F.blt (l.foldl (fun mm yx => scanStep mm (samples yx.1 yx.2)) mm).2 v = false := by
  intro l
  induction l with
  | nil => intro mm v hv; exact hv
  | cons q l ih =>
      intro mm v hv
      simp only [List.foldl_cons]
      apply ih
      unfold scanStep
      dsimp only
      split
      · next hb =>
          by_contra huv
          rw [Bool.not_eq_false] at huv
          rw [F.blt_trans hb huv] at hv
          exact absurd hv (by decide)
      · exact hv

/-- The final running maximum is not strictly below any scanned value. -/
theorem scan_fold_max_not_lt (samples : ℕ → ℕ → F) :
    ∀ (l : List (ℕ × ℕ)) (mm : F × F), ∀ p ∈ l,
      F.blt (l.foldl (fun mm yx => scanStep mm (samples yx.1 yx.2)) mm).2
        (samples p.1 p.2) = false := by
  intro l
  induction l with
  | nil => intro mm p hp; cases hp
  | cons q l ih =>
      intro mm p hp
      simp only [List.foldl_cons]
      rcases List.mem_cons.mp hp with hpq | hpl
      · subst hpq
        apply scan_fold_max_not_lt_persist
        unfold scanStep
        dsimp only
        split
        · exact F.blt_self _
        · next hb => exact Bool.not_eq_true _ ▸ hb
      · exact ih _ p hpl

/-- If no scanned value is strictly above the running maximum, the running
maximum never changes. -/
theorem scan_fold_max_const (samples : ℕ → ℕ → F) :
    ∀ (l : List (ℕ × ℕ)) (mm : F × F),
      (∀ p ∈ l, F.blt mm.2 (samples p.1 p.2) = false) →
      (l.foldl (fun mm yx => scanStep mm (samples yx.1 yx.2)) mm).2 = mm.2 := by
  intro l
  induction l with
  | nil => intro mm _; rfl
  | cons q l ih =>
      intro mm hall
      simp only [List.foldl_cons]
      have hq : (scanStep mm (samples q.1 q.2)).2 = mm.2 := by
        unfold scanStep
        dsimp only
        rw [hall q (List.mem_cons_self q l)]
        simp
      rw [ih _ (by intro p hp; rw [hq]; exact hall p (List.mem_cons_of_mem q hp)), hq]

/- ------------------------------------------------------------------ -/
/- Claim C1                                                            -/
/- ------------------------------------------------------------------ -/

/-- C1: for every TIFF stack with N ≥ 2 frames (one first page plus a
nonempty list of additional U16 pages), the reduced sample at each pixel is
the element-wise sum over all N frames divided by the count of additional
frames N - 1, not by the total frame count N. -/
theorem c1_multi_frame_divides_by_additional_count
    (frame0 : List ℕ) (rest : List (List ℕ)) (h y x : ℕ) (hrest : rest ≠ []) :
    tiffReduced frame0 rest h y x =
      F.fin ((((frame0 :: rest).map (fun fr => ((fr.getD (y * h + x) 0 : ℕ) : ℚ))).sum)
        / (((frame0 :: rest).length : ℚ) - 1)) := by
  have hsum : stackSum frame0 rest (y * h + x) =
      ((frame0 :: rest).map (fun fr => ((fr.getD (y * h + x) 0 : ℕ) : ℚ))).sum := by
    rw [stackSum, foldl_add_eq_sum]; ring
  have hden : (((frame0 :: rest).length : ℚ) - 1) = ((rest.length : ℕ) : ℚ) := by
    push_cast [List.length_cons]; ring
  rw [tiffReduced_of_rest_ne_nil frame0 rest h y x hrest, hsum, hden]

/-- C1 witness: a 1×1 stack of two frames with values 10 and 20 reduces to
(10 + 20) / (2 - 1) = 30. -/
theorem c1_multi_frame_divides_by_additional_count_witness :
    ([[20]] : List (List ℕ)) ≠ [] ∧ tiffReduced [10] [[20]] 1 0 0 = F.fin 30 := by
  refine ⟨by decide, ?_⟩
  rw [c1_multi_frame_divides_by_additional_count [10] [[20]] 1 0 0 (by decide)]
  norm_num [List.getD_cons_zero, F.fin.injEq]

/- ------------------------------------------------------------------ -/
/- Claim C2                                                            -/
/- ------------------------------------------------------------------ -/

/-- C2 (evaluation at the failing input): a single-page TIFF has `rest = []`
and hence `levels = 0`, so the unconditional division of lines 199-203
divides by zero — against the claim (and the source's own comment that it
takes an average), the 1×1 frame [5] reduces to +inf and the 1×1 frame [0]
reduces to NaN, while the FITS path does yield its single frame unchanged. -/
theorem c2_single_page_divides_by_zero :
    tiffReduced [5] [] 1 0 0 = F.pinf ∧
    tiffReduced [0] [] 1 0 0 = F.nan ∧
    fitsReduced [(5 : ℚ)] 1 0 0 = 5 := by
  refine ⟨?_, ?_, ?_⟩
  · norm_num [tiffReduced, stackSum, F.div, List.foldl_cons, List.foldl_nil,
      List.getD_cons_zero]
  · norm_num [tiffReduced, stackSum, F.div, List.foldl_cons, List.foldl_nil,
      List.getD_cons_zero]
  · norm_num [fitsReduced, List.getD_cons_zero]

/- ------------------------------------------------------------------ -/
/- Claim C9                                                            -/
/- ------------------------------------------------------------------ -/

/-- C9 counterexample: a 2-frame 1×1 stack whose both frames hold the value
100 at the only pixel reduces to (100 + 100) / 1 = 200, not to the common
value 100 — the source's accounting rule sums N frames but divides by N - 1,
which is not any consistently applied averaging rule. -/
theorem c9_constant_stack_counterexample :
    tiffReduced [100] [[100]] 1 0 0 = F.fin 200 ∧ F.fin 200 ≠ F.fin (100 : ℚ) := by
  refine ⟨?_, ?_⟩
  · norm_num [tiffReduced, stackSum, F.div, List.foldl_cons, List.foldl_nil,
      List.getD_cons_zero, F.fin.injEq]
  · norm_num [F.fin.injEq]

/-- C9 (amended): for an N-frame stack (N ≥ 2) in which every frame holds
the same value v at every pixel, the reduced sample equals N·v / (N - 1),
and it equals v exactly when v = 0. -/
theorem c9_amended_constant_stack_value
    (frame0 : List ℕ) (rest : List (List ℕ)) (v len h y x : ℕ)
    (hrest : rest ≠ [])
    (hconst : ∀ fr ∈ frame0 :: rest, fr = List.replicate len v)
    (hidx : y * h + x < len) :
    tiffReduced frame0 rest h y x =
      F.fin ((((frame0 :: rest).length : ℚ) * v) / (((frame0 :: rest).length : ℚ) - 1)) ∧
    (tiffReduced frame0 rest h y x = F.fin v ↔ v = 0) := by
  have hL0 : (0 : ℚ) < ((rest.length : ℕ) : ℚ) := by
    exact_mod_cast List.length_pos.mpr hrest
  have hval : ∀ fr ∈ frame0 :: rest, ((fr.getD (y * h + x) 0 : ℕ) : ℚ) = ((v : ℕ) : ℚ) := by
    intro fr hfr
    rw [hconst fr hfr]
    simp [List.getD_eq_getElem?_getD, List.getElem?_replicate_of_lt hidx]
  have hsum : stackSum frame0 rest (y * h + x) = (((frame0 :: rest).length : ℕ) : ℚ) * v := by
    rw [stackSum, foldl_add_eq_sum, sum_map_const _ _ _ hval]
    ring
  have hNL : (((frame0 :: rest).length : ℕ) : ℚ) = ((rest.length : ℕ) : ℚ) + 1 := by
    push_cast [List.length_cons]; ring
  rw [tiffReduced_of_rest_ne_nil frame0 rest h y x hrest, hsum, hNL]
  refine ⟨?_, ?_⟩
  · congr 1
    ring_nf
  · simp only [F.fin.injEq]
    rw [div_eq_iff (ne_of_gt hL0)]
    constructor
    · intro heq
      have hv : (v : ℚ) = 0 := by ring_nf at heq; nlinarith
      exact_mod_cast hv
    · intro hv
      subst hv
      push_cast
      ring

/- ------------------------------------------------------------------ -/
/- Claim C4                                                            -/
/- ------------------------------------------------------------------ -/

/-- C4 counterexample: the ReducedImage produced from the single-page 1×1
TIFF with pixel value 0 has the sample NaN (0 / 0), and both halves of the
invariant min ≤ sample ≤ max are false for it under IEEE comparison. -/
theorem c4_counterexample_single_page_nan :
    F.ble (scanMinMax (tiffReduced [0] [] 1) 1 1).1 (tiffReduced [0] [] 1 0 0) = false ∧
    F.ble (tiffReduced [0] [] 1 0 0) (scanMinMax (tiffReduced [0] [] 1) 1 1).2 = false := by
  have hnan : tiffReduced [0] [] 1 0 0 = F.nan := by
    norm_num [tiffReduced, stackSum, F.div, List.foldl_cons, List.foldl_nil,
      List.getD_cons_zero]
  rw [hnan]
  exact ⟨F.ble_nan_right _, F.ble_nan_left _⟩

/-- C4 (amended): min ≤ sample ≤ max holds for every sample of every
produced ReducedImage whose samples are finite — every FITS decode, and
every TIFF stack with at least one additional page; the single-page TIFF
case is excluded because its division by zero yields NaN samples. -/
theorem c4_amended_min_max_bounds
    (data : List ℚ) (frame0 : List ℕ) (rest : List (List ℕ)) (w h y x : ℕ)
    (hy : y < h) (hx : x < w) (hrest : rest ≠ []) :
    (F.ble (scanMinMax (fun a b => F.fin (fitsReduced data h a b)) w h).1
        (F.fin (fitsReduced data h y x)) = true ∧
     F.ble (F.fin (fitsReduced data h y x))
        (scanMinMax (fun a b => F.fin (fitsReduced data h a b)) w h).2 = true) ∧
    (F.ble (scanMinMax (tiffReduced frame0 rest h) w h).1
        (tiffReduced frame0 rest h y x) = true ∧
     F.ble (tiffReduced frame0 rest h y x)
        (scanMinMax (tiffReduced frame0 rest h) w h).2 = true) := by
  constructor
  · exact scan_fold_bounds (fun a b => F.fin (fitsReduced data h a b))
      (pixelIndices w h) (F.fin (10 ^ 12), F.fin 0) (by simp) (by simp)
      (y, x) (mem_pixelIndices.mpr ⟨hy, hx⟩) (by simp)
  · have hfin : tiffReduced frame0 rest h y x ≠ F.nan := by
      rw [tiffReduced_of_rest_ne_nil frame0 rest h y x hrest]
      simp
    exact scan_fold_bounds (tiffReduced frame0 rest h)
      (pixelIndices w h) (F.fin (10 ^ 12), F.fin 0) (by simp) (by simp)
      (y, x) (mem_pixelIndices.mpr ⟨hy, hx⟩) hfin

/-- C4 witness: a 1×1 FITS decode of [3] and a 1×1 two-page TIFF stack
[7], [9] both satisfy the min/max invariant at their only pixel. -/
theorem c4_amended_min_max_bounds_witness :
    (0 : ℕ) < 1 ∧ ([[9]] : List (List ℕ)) ≠ [] ∧
    ((F.ble (scanMinMax (fun a b => F.fin (fitsReduced [3] 1 a b)) 1 1).1
        (F.fin (fitsReduced [3] 1 0 0)) = true ∧
      F.ble (F.fin (fitsReduced [3] 1 0 0))
        (scanMinMax (fun a b => F.fin (fitsReduced [3] 1 a b)) 1 1).2 = true) ∧
     (F.ble (scanMinMax (tiffReduced [7] [[9]] 1) 1 1).1
        (tiffReduced [7] [[9]] 1 0 0) = true ∧
      F.ble (tiffReduced [7] [[9]] 1 0 0)
        (scanMinMax (tiffReduced [7] [[9]] 1) 1 1).2 = true)) :=
  ⟨by decide, by decide,
    c4_amended_min_max_bounds [3] [7] [[9]] 1 1 0 0 (by decide) (by decide) (by decide)⟩

/- ------------------------------------------------------------------ -/
/- Claim C5                                                            -/
/- ------------------------------------------------------------------ -/

/-- When the computed maximum is zero, every sample the scan visited
normalises to the byte 0: NaN, -inf and finite nonpositive quotients all
reach 0 through the saturating cast. -/
theorem normByte_zero_max {v : F} (hv : F.blt (F.fin 0) v = false) :
    normByte v (F.fin 0) = 0 := by
  cases v with
  | nan => simp [normByte, F.div, F.mul, F.toU8]
  | pinf => simp [F.blt] at hv
  | ninf => norm_num [normByte, F.div, F.mul, F.toU8]
  | fin q =>
      have hq : q ≤ 0 := by
        simp only [F.blt, decide_eq_false_iff_not, not_lt] at hv
        exact hv
      rcases lt_or_eq_of_le hq with hq' | hq'
      · have h1 : ¬ (0 : ℚ) < q := not_lt.mpr hq
        norm_num [normByte, F.div, F.mul, F.toU8, h1, hq']
      · subst hq'
        norm_num [normByte, F.div, F.mul, F.toU8]

/-- Writing zeros into an all-zero buffer keeps every byte zero. -/
theorem foldl_writePixel_all_zero (f o : ℕ × ℕ → ℕ) :
    ∀ (l : List (ℕ × ℕ)) (buf : List ℕ), (∀ b ∈ buf, b = 0) → (∀ p ∈ l, f p = 0) →
      ∀ b ∈ l.foldl (fun buf p => writePixel buf (o p) (f p)) buf, b = 0 := by
  intro l
  induction l with
  | nil => intro buf hbuf _ b hb; exact hbuf b hb
  | cons q l ih =>
      intro buf hbuf hall b hb
      simp only [List.foldl_cons] at hb
      refine ih _ ?_ (fun p hp => hall p (List.mem_cons_of_mem q hp)) b hb
      intro c hc
      unfold writePixel at hc
      rcases List.mem_or_eq_of_mem_set hc with hc | hc
      · rcases List.mem_or_eq_of_mem_set hc with hc | hc
        · rcases List.mem_or_eq_of_mem_set hc with hc | hc
          · exact hbuf c hc
          · rw [hc]; exact hall q (List.mem_cons_self q l)
        · rw [hc]; exact hall q (List.mem_cons_self q l)
      · rw [hc]; exact hall q (List.mem_cons_self q l)

/-- C5: normalising a reduced image whose computed maximum equals 0 produces
a display buffer every byte of which is zero — Rust's saturating f32-to-u8
cast sends the NaN and -inf quotients of the division by a zero maximum to
the byte 0, so no invalid numeric state reaches the output. -/
theorem c5_zero_max_all_bytes_zero (samples : ℕ → ℕ → F) (w h : ℕ)
    (hmax : (scanMinMax samples w h).2 = F.fin 0) :
    ∀ b ∈ finalBuffer samples w h (scanMinMax samples w h).2, b = 0 := by
  rw [hmax]
  have hnot : ∀ p ∈ pixelIndices w h, F.blt (F.fin 0) (samples p.1 p.2) = false := by
    intro p hp
    have hfold := scan_fold_max_not_lt samples (pixelIndices w h)
      (F.fin (10 ^ 12), F.fin 0) p hp
    unfold scanMinMax at hmax
    rw [hmax] at hfold
    exact hfold
  refine foldl_writePixel_all_zero
    (fun yx => normByte (samples yx.1 yx.2) (F.fin 0))
    (fun yx => (yx.1 * h + yx.2) * 3)
    (pixelIndices w h) (List.replicate (w * h * 3) 0)
    (fun b hb => List.eq_of_mem_replicate hb) ?_
  intro p hp
  exact normByte_zero_max (hnot p hp)

/-- C5 witness: the all-zero 1×1 image has computed maximum 0 and an
all-zero display buffer. -/
theorem c5_zero_max_all_bytes_zero_witness :
    (scanMinMax (fun _ _ => F.fin 0) 1 1).2 = F.fin 0 ∧
    ∀ b ∈ finalBuffer (fun _ _ => F.fin 0) 1 1 (scanMinMax (fun _ _ => F.fin 0) 1 1).2,
      b = 0 := by
  have hmax : (scanMinMax (fun _ _ => F.fin 0) 1 1).2 = F.fin 0 := by
    unfold scanMinMax
    refine scan_fold_max_const (fun _ _ => F.fin 0) (pixelIndices 1 1)
      (F.fin (10 ^ 12), F.fin 0) ?_
    intro p _
    simp [F.blt]
  exact ⟨hmax, c5_zero_max_all_bytes_zero (fun _ _ => F.fin 0) 1 1 hmax⟩

/- ------------------------------------------------------------------ -/
/- Claim C6                                                            -/
/- ------------------------------------------------------------------ -/

/-- C6: the min/max scan is a single linear pass starting from the sentinel
pair (minp, maxp) = (10^12, 0) — the fold over an empty pixel list returns
exactly that pair — and for every reduced image whose samples are all
strictly negative the reported maximum is the initial 0, which differs from
every actual sample. -/
theorem c6_all_negative_reports_zero_max (g : ℕ → ℕ → ℚ) (w h : ℕ)
    (hh : 0 < h) (hw : 0 < w) (hneg : ∀ y < h, ∀ x < w, g y x < 0) :
    (∀ s : ℕ → ℕ → F, scanMinMax s w 0 = (F.fin (10 ^ 12), F.fin 0)) ∧
    (scanMinMax (fun a b => F.fin (g a b)) w h).2 = F.fin 0 ∧
    ∀ y < h, ∀ x < w, (scanMinMax (fun a b => F.fin (g a b)) w h).2 ≠ F.fin (g y x) := by
  have hmax : (scanMinMax (fun a b => F.fin (g a b)) w h).2 = F.fin 0 := by
    unfold scanMinMax
    refine scan_fold_max_const (fun a b => F.fin (g a b)) (pixelIndices w h)
      (F.fin (10 ^ 12), F.fin 0) ?_
    intro p hp
    have hp' := mem_pixelIndices.mp hp
    simp only [F.blt, decide_eq_false_iff_not, not_lt]
    exact (hneg p.1 hp'.1 p.2 hp'.2).le
  refine ⟨fun s => rfl, hmax, ?_⟩
  intro y hy x hx
  rw [hmax]
  simp only [ne_eq, F.fin.injEq]
  exact ne_of_gt (hneg y hy x hx)

/-- C6 witness: the 1×1 image with the single sample -1 reports maximum 0. -/
theorem c6_all_negative_reports_zero_max_witness :
    (0 : ℕ) < 1 ∧
    (∀ s : ℕ → ℕ → F, scanMinMax s 1 0 = (F.fin (10 ^ 12), F.fin 0)) ∧
    (scanMinMax (fun a b => F.fin ((fun _ _ => (-1 : ℚ)) a b)) 1 1).2 = F.fin 0 ∧
    ∀ y < 1, ∀ x < 1,
      (scanMinMax (fun a b => F.fin ((fun _ _ => (-1 : ℚ)) a b)) 1 1).2 ≠
        F.fin ((fun _ _ => (-1 : ℚ)) y x) :=
  ⟨by decide,
    c6_all_negative_reports_zero_max (fun _ _ => (-1 : ℚ)) 1 1 (by decide) (by decide)
      (by norm_num)⟩

/-- C9 witness for the amended theorem: two 1×1 frames of constant value 7
reduce to 2·7 / (2 - 1) = 14. -/
theorem c9_amended_constant_stack_value_witness :
    ([[7]] : List (List ℕ)) ≠ [] ∧
    (∀ fr ∈ ([7] : List ℕ) :: [[7]], fr = List.replicate 1 7) ∧
    tiffReduced [7] [[7]] 1 0 0 = F.fin 14 := by
  refine ⟨by decide, by decide, ?_⟩
  have hred := (c9_amended_constant_stack_value [7] [[7]] 7 1 1 0 0 (by decide) (by decide)
    (by decide)).1
  rw [hred]
  norm_num [F.fin.injEq]

/- ------------------------------------------------------------------ -/
/- Buffer write/read helpers                                           -/
/- ------------------------------------------------------------------ -/

/-- Reading back the position just written. -/
theorem getD_set_self (l : List ℕ) (i v : ℕ) (hi : i < l.length) :
    (l.set i v).getD i 0 = v := by
  simp [List.getD_eq_getElem?_getD, List.getElem?_set_self hi]

/-- Writing one position leaves every other position unchanged. -/
theorem getD_set_ne (l : List ℕ) (i j v : ℕ) (hij : i ≠ j) :
    (l.set i v).getD j 0 = l.getD j 0 := by
  simp [List.getD_eq_getElem?_getD, List.getElem?_set_ne hij]

/-- Writing the three channels of a pixel preserves the buffer length. -/
theorem writePixel_length (buf : List ℕ) (i v : ℕ) :
    (writePixel buf i v).length = buf.length := by
  simp [writePixel]

/-- Each of the three channel positions of an in-bounds pixel write reads
back the written byte. -/
theorem writePixel_getD (buf : List ℕ) (i v c : ℕ) (hc : c < 3)
    (hlen : i + 2 < buf.length) :
    (writePixel buf i v).getD (i + c) 0 = v := by
  have h0 : i < buf.length := by omega
  have h1 : i + 1 < (buf.set i v).length := by simp only [List.length_set]; omega
  have h2 : i + 2 < ((buf.set i v).set (i + 1) v).length := by
    simp only [List.length_set]; omega
  unfold writePixel
  interval_cases c
  · rw [getD_set_ne _ _ _ _ (by omega), getD_set_ne _ _ _ _ (by omega)]
    simpa using getD_set_self buf i v h0
  · rw [getD_set_ne _ _ _ _ (by omega)]
    exact getD_set_self _ _ _ h1
  · exact getD_set_self _ _ _ h2

/-- A position belonging to none of the written pixels keeps its value
through the whole normalisation fold. -/
theorem foldl_writePixel_untouched (f o : ℕ × ℕ → ℕ) :
    ∀ (l : List (ℕ × ℕ)) (buf : List ℕ) (j : ℕ),
      (∀ p ∈ l, ∀ c < 3, o p * 3 + c ≠ j) →
      (l.foldl (fun buf p => writePixel buf (o p * 3) (f p)) buf).getD j 0 = buf.getD j 0 := by
  intro l
  induction l with
  | nil => intro buf j _; rfl
  | cons q l ih =>
      intro buf j hall
      simp only [List.foldl_cons]
      rw [ih _ j (fun p hp => hall p (List.mem_cons_of_mem q hp))]
      unfold writePixel
      have hq := hall q (List.mem_cons_self q l)
      rw [getD_set_ne _ _ _ _ (hq 2 (by omega)), getD_set_ne _ _ _ _ (hq 1 (by omega)),
        getD_set_ne _ _ _ _ (by have := hq 0 (by omega); omega)]

/-- Reading back one channel of one pixel after the whole normalisation
fold, provided the pixel occurs in the list, its offset collides with no
other listed pixel's offset, and its write stays in bounds. -/
theorem foldl_writePixel_getD (f o : ℕ × ℕ → ℕ) :
    ∀ (l : List (ℕ × ℕ)) (buf : List ℕ) (y x c : ℕ), c < 3 →
      (y, x) ∈ l →
      (∀ p ∈ l, p = (y, x) ∨ o p ≠ o (y, x)) →
      o (y, x) * 3 + 2 < buf.length →
      (l.foldl (fun buf p => writePixel buf (o p * 3) (f p)) buf).getD (o (y, x) * 3 + c) 0
        = f (y, x) := by
  intro l
  induction l with
  | nil => intro buf y x c _ hm; cases hm
  | cons q l ih =>
      intro buf y x c hc hm hinj hlen
      simp only [List.foldl_cons]
      by_cases hmem : (y, x) ∈ l
      · refine ih _ y x c hc hmem (fun p hp => hinj p (List.mem_cons_of_mem q hp)) ?_
        rw [writePixel_length]
        exact hlen
      · have hq : q = (y, x) := by
          rcases List.mem_cons.mp hm with hh | hh
          · exact hh.symm
          · exact absurd hh hmem
        subst hq
        rw [foldl_writePixel_untouched f o l _ _ ?_]
        · exact writePixel_getD buf _ _ c hc hlen
        · intro p hp c' hc'
          rcases hinj p (List.mem_cons_of_mem _ hp) with hpq | hpo
          · exact absurd (hpq ▸ hp) hmem
          · omega

/-- The linear offsets of two in-range pixel coordinates agree only when
the coordinates agree. -/
theorem mul_add_index_inj {w a b c d : ℕ} (hb : b < w) (hd : d < w)
    (heq : a * w + b = c * w + d) : a = c ∧ b = d := by
  have hw : 0 < w := Nat.lt_of_le_of_lt (Nat.zero_le b) hb
  have h1 : (a * w + b) / w = a := by
    rw [Nat.mul_comm, Nat.mul_add_div hw, Nat.div_eq_of_lt hb, Nat.add_zero]
  have h2 : (c * w + d) / w = c := by
    rw [Nat.mul_comm, Nat.mul_add_div hw, Nat.div_eq_of_lt hd, Nat.add_zero]
  have hac : a = c := by rw [← h1, ← h2, heq]
  subst hac
  exact ⟨rfl, Nat.add_left_cancel heq⟩

/-- The source's read offset y * height + x stays below width * height
whenever height ≤ width. -/
theorem readOffset_lt {w h y x : ℕ} (hy : y < h) (hx : x < w) (hhw : h ≤ w) :
    y * h + x < w * h := by
  obtain ⟨k, rfl⟩ : ∃ k, h = k + 1 := ⟨h - 1, by omega⟩
  have hyk : y ≤ k := by omega
  calc y * (k + 1) + x < y * (k + 1) + w := by omega
    _ ≤ k * (k + 1) + w := by
        have := Nat.mul_le_mul hyk (Nat.le_refl (k + 1))
        omega
    _ ≤ k * w + w := by
        have := Nat.mul_le_mul (Nat.le_refl k) hhw
        omega
    _ = (k + 1) * w := by rw [Nat.succ_mul]
    _ = w * (k + 1) := Nat.mul_comm _ _

/- ------------------------------------------------------------------ -/
/- Claim C3                                                            -/
/- ------------------------------------------------------------------ -/

/-- C3 counterexample: the reduced 1×2 image with samples 1 and 2 has
computed maximum 2, and the displayed byte of the first pixel is the
truncation 127 of 1/2·255 = 127.5, whereas the claim's formula
round(sample / max · 255) gives 128. -/
theorem c3_counterexample_truncation_vs_round :
    (finalBuffer (fun y x => F.fin (fitsReduced [1, 2] 1 y x)) 2 1
        ((scanMinMax (fun y x => F.fin (fitsReduced [1, 2] 1 y x)) 2 1).2)).getD 0 0 = 127 ∧
    round ((1 : ℚ) / 2 * 255) = 128 ∧ (127 : ℕ) ≠ 128 := by
  have hpix : pixelIndices 2 1 = [(0, 0), (0, 1)] := by decide
  have hs0 : fitsReduced [1, 2] 1 0 0 = 1 := by norm_num [fitsReduced]
  have hs1 : fitsReduced [1, 2] 1 0 1 = 2 := by norm_num [fitsReduced]
  have hmax : (scanMinMax (fun y x => F.fin (fitsReduced [1, 2] 1 y x)) 2 1).2 = F.fin 2 := by
    unfold scanMinMax
    rw [hpix]
    simp only [List.foldl_cons, List.foldl_nil]
    norm_num [scanStep, F.blt, hs0, hs1]
  have hc0 : normByte (F.fin (fitsReduced [1, 2] 1 0 0)) (F.fin 2) = 127 := by
    rw [hs0]
    norm_num [normByte, F.div, F.mul, F.toU8]
    decide
  have hc1 : normByte (F.fin (fitsReduced [1, 2] 1 0 1)) (F.fin 2) = 255 := by
    rw [hs1]
    norm_num [normByte, F.div, F.mul, F.toU8]
    decide
  refine ⟨?_, ?_, by decide⟩
  · rw [hmax]
    unfold finalBuffer
    rw [hpix]
    simp only [List.foldl_cons, List.foldl_nil, hc0, hc1]
    decide
  · rw [round_eq]
    norm_num

/-- C3 (amended): for every reduced image — stated for square images, where
the source's write offset (y·height + x)·3 is the row-major offset of
stride width·3 (non-square images are settled by C7 and C10) — each of the
three channel bytes of a pixel equals the saturating TRUNCATION of
sample / max · 255 into 0..255 (not the rounding the claim states), and the
formula uses the computed maximum only. -/
theorem c3_amended_truncated_byte_all_channels
    (samples : ℕ → ℕ → F) (w h y x c : ℕ) (hsq : h = w)
    (hy : y < h) (hx : x < w) (hc : c < 3) :
    (finalBuffer samples w h ((scanMinMax samples w h).2)).getD ((y * w + x) * 3 + c) 0
      = F.toU8 (F.mul (F.div (samples y x) ((scanMinMax samples w h).2)) (F.fin 255)) := by
  subst hsq
  have hmem : (y, x) ∈ pixelIndices h h := mem_pixelIndices.mpr ⟨hy, hx⟩
  have hinj : ∀ p ∈ pixelIndices h h, p = (y, x) ∨ p.1 * h + p.2 ≠ y * h + x := by
    intro p hp
    by_cases hpq : p = (y, x)
    · exact Or.inl hpq
    · refine Or.inr (fun heq => hpq ?_)
      have hp' := mem_pixelIndices.mp hp
      obtain ⟨h1, h2⟩ := mul_add_index_inj hp'.2 hx heq
      exact Prod.ext h1 h2
  have hofs : y * h + x < h * h := readOffset_lt hy hx (Nat.le_refl h)
  have hlen : (y * h + x) * 3 + 2 < (List.replicate (h * h * 3) 0).length := by
    rw [List.length_replicate]
    linarith
  exact foldl_writePixel_getD
    (fun p => normByte (samples p.1 p.2) ((scanMinMax samples h h).2))
    (fun p => p.1 * h + p.2)
    (pixelIndices h h) (List.replicate (h * h * 3) 0) y x c hc hmem hinj hlen

/-- C3 witness: the 1×1 image with the single sample 1 satisfies the
amended channel formula at its only pixel and channel. -/
theorem c3_amended_truncated_byte_all_channels_witness :
    (1 : ℕ) = 1 ∧ (0 : ℕ) < 1 ∧ (0 : ℕ) < 3 ∧
    (finalBuffer (fun _ _ => F.fin 1) 1 1
        ((scanMinMax (fun _ _ => F.fin 1) 1 1).2)).getD ((0 * 1 + 0) * 3 + 0) 0
      = F.toU8 (F.mul (F.div (F.fin 1) ((scanMinMax (fun _ _ => F.fin 1) 1 1).2))
          (F.fin 255)) :=
  ⟨rfl, by decide, by decide,
    c3_amended_truncated_byte_all_channels (fun _ _ => F.fin 1) 1 1 0 0 0 rfl
      (by decide) (by decide) (by decide)⟩

/- ------------------------------------------------------------------ -/
/- Claim C7                                                            -/
/- ------------------------------------------------------------------ -/

/-- C7: for square images (width = height) the source's y·height + x
indexing coincides with row-major y·width + x indexing — the decoded FITS
frame, the reduced TIFF frame and the normalised display buffer are
identical to their row-major counterparts. -/
theorem c7_square_indexing_coincides
    (data : List ℚ) (frame0 : List ℕ) (rest : List (List ℕ))
    (samples : ℕ → ℕ → F) (maxp : F) (w h : ℕ) (hsq : h = w) :
    (∀ y x, fitsReduced data h y x = rowMajorSample data w y x) ∧
    (∀ y x, tiffReduced frame0 rest h y x = tiffReducedRowMajor frame0 rest w y x) ∧
    finalBuffer samples w h maxp = finalBufferRowMajor samples w h maxp := by
  subst hsq
  exact ⟨fun _ _ => rfl, fun _ _ => rfl, rfl⟩

/-- C7 witness: a concrete square 2×2 instance of the coincidence. -/
theorem c7_square_indexing_coincides_witness :
    (2 : ℕ) = 2 ∧
    ((∀ y x, fitsReduced [1, 2, 3, 4] 2 y x = rowMajorSample [1, 2, 3, 4] 2 y x) ∧
     (∀ y x, tiffReduced [1, 2, 3, 4] [] 2 y x = tiffReducedRowMajor [1, 2, 3, 4] [] 2 y x) ∧
     finalBuffer (fun _ _ => F.fin 1) 2 2 (F.fin 1) =
       finalBufferRowMajor (fun _ _ => F.fin 1) 2 2 (F.fin 1)) :=
  ⟨rfl, c7_square_indexing_coincides [1, 2, 3, 4] [1, 2, 3, 4] []
    (fun _ _ => F.fin 1) (F.fin 1) 2 2 rfl⟩

/- ------------------------------------------------------------------ -/
/- Claim C10                                                           -/
/- ------------------------------------------------------------------ -/

/-- C10: for every decoded image with positive width whose height exceeds
its width, some pixel's read offset y·height + x reaches past the
width·height samples of the frame and its write offset (y·height + x)·3
reaches past the width·height·3 bytes of the output buffer; and whenever
height ≤ width every read and write offset of the loops stays in bounds,
so the pipeline is total exactly when height ≤ width. -/
theorem c10_indexing_out_of_bounds (w h : ℕ) (hw : 1 ≤ w) (hwh : w < h) :
    (∃ y, y < h ∧ ∃ x, x < w ∧ frameLen w h ≤ readOffset h y x ∧
      bufLen w h ≤ writeOffset h y x) ∧
    (∀ w' h' y x : ℕ, h' ≤ w' → y < h' → x < w' →
      readOffset h' y x < frameLen w' h' ∧ writeOffset h' y x + 2 < bufLen w' h') := by
  constructor
  · refine ⟨h - 1, by omega, 0, by omega, ?_, ?_⟩
    · unfold frameLen readOffset
      have hwk : w ≤ h - 1 := by omega
      have h2 := Nat.mul_le_mul hwk (Nat.le_refl h)
      omega
    · unfold bufLen writeOffset
      have hwk : w ≤ h - 1 := by omega
      have h2 := Nat.mul_le_mul hwk (Nat.le_refl h)
      have h3 := Nat.mul_le_mul h2 (Nat.le_refl 3)
      omega
  · intro w' h' y x hle hy hx
    have hlt := readOffset_lt hy hx hle
    unfold readOffset frameLen writeOffset bufLen
    constructor
    · exact hlt
    · linarith

/-- C10 witness: the 1×2 image (width 1, height 2) indexes out of bounds at
pixel (1, 0), and in-bounds indexing holds whenever height ≤ width. -/
theorem c10_indexing_out_of_bounds_witness :
    (1 : ℕ) ≤ 1 ∧ (1 : ℕ) < 2 ∧
    ((∃ y, y < 2 ∧ ∃ x, x < 1 ∧ frameLen 1 2 ≤ readOffset 2 y x ∧
        bufLen 1 2 ≤ writeOffset 2 y x) ∧
     (∀ w' h' y x : ℕ, h' ≤ w' → y < h' → x < w' →
        readOffset h' y x < frameLen w' h' ∧ writeOffset h' y x + 2 < bufLen w' h')) :=
  ⟨by decide, by decide, c10_indexing_out_of_bounds 1 2 (by decide) (by decide)⟩

/- ------------------------------------------------------------------ -/
/- Claim C8                                                            -/
/- ------------------------------------------------------------------ -/

/-- C8 counterexample: decoding a path with the unknown extension "png"
returns the dummy success tuple, not an UnsupportedFormat failure, and a
FITS file whose primary data unit holds 32-bit integers returns a normal
0×0 image, not an UnexpectedPixelFormat failure — no DecodeError type
exists in the program. -/
theorem c8_counterexample_no_decode_errors :
    getImage (some "png") 1 1 (FitsData.FloatingPoint32 [1, 1] [0]) (ColorType.Gray 16)
      (DecodingResult.U16 [0]) = RenderResult.dummy ∧
    getImageFitsKind (FitsData.IntegersI32 [1, 1] [42]) = RenderResult.ok 0 0 := by
  exact ⟨by decide, by decide⟩

/-- C8 (amended): there is no DecodeError type anywhere in the program.
The dispatcher returns the dummy 0×0 success for every unknown extension
and panics on a missing extension; the TIFF path panics via the colortype
assertion unless the image is Gray(16), panics "Wrong data type" when the
first page is not 16-bit unsigned, and otherwise returns normally; the
FITS path silently returns a 0×0 success when the data is not 32-bit
floating point.  No conversion from other bit depths or colour encodings
is attempted anywhere. -/
theorem c8_amended_dispatch_behaviour :
    (∀ (e : String) (w h : ℕ) (fits : FitsData) (ct : ColorType) (res : DecodingResult),
      e ≠ "fits" → e ≠ "tif" → e ≠ "tiff" →
      getImage (some e) w h fits ct res = RenderResult.dummy) ∧
    (∀ (w h : ℕ) (fits : FitsData) (ct : ColorType) (res : DecodingResult),
      getImage none w h fits ct res =
        RenderResult.fatal "called Option unwrap on a None value") ∧
    (∀ (w h : ℕ) (ct : ColorType) (res : DecodingResult), ct ≠ ColorType.Gray 16 →
      getImageTiffKind w h ct res = RenderResult.fatal "assertion failed") ∧
    (∀ (w h : ℕ) (data : List ℕ),
      getImageTiffKind w h (ColorType.Gray 16) (DecodingResult.U16 data) =
        RenderResult.ok w h) ∧
    (∀ (w h : ℕ) (data : List ℕ),
      getImageTiffKind w h (ColorType.Gray 16) (DecodingResult.U8 data) =
        RenderResult.fatal "Wrong data type") ∧
    (∀ (shape : List ℕ) (data : List ℤ),
      getImageFitsKind (FitsData.IntegersI32 shape data) = RenderResult.ok 0 0) := by
  refine ⟨?_, ?_, ?_, ?_, ?_, ?_⟩
  · intro e w h fits ct res h1 h2 h3
    simp [getImage, h1, h2, h3]
  · intro w h fits ct res
    rfl
  · intro w h ct res hct
    simp [getImageTiffKind, hct]
  · intro w h data
    simp [getImageTiffKind]
  · intro w h data
    simp [getImageTiffKind]
  · intro shape data
    rfl

/-- C8 witness: extension "jpg" yields the dummy return and colour type
Gray(8) panics the assertion. -/
theorem c8_amended_dispatch_behaviour_witness :
    ("jpg" : String) ≠ "fits" ∧
    getImage (some "jpg") 1 1 (FitsData.IntegersI32 [] []) (ColorType.Gray 16)
      (DecodingResult.U16 []) = RenderResult.dummy ∧
    getImageTiffKind 1 1 (ColorType.Gray 8) (DecodingResult.U16 []) =
      RenderResult.fatal "assertion failed" :=
  ⟨by decide,
    c8_amended_dispatch_behaviour.1 "jpg" 1 1 _ _ _ (by decide) (by decide) (by decide),
    c8_amended_dispatch_behaviour.2.2.1 1 1 _ _ (by decide)⟩

end Fex
